import Mathlib

/-!
Verification of the K-Nearest-Neighbors core described by this repository's
specification.  The repository itself consists of two teaching notebooks
(`ML_K_Nearest_Neighbors.ipynb` and a scikit-learn workflow notebook); the
KNN core (`NeighborIndex`, `Predictor`, `Standardizer`) is described by the
specification and is modelled here from the spec's words, while
`CenteringTransformer`, `ShellEstimator` and the manual
transform-then-predict workflow are embedded from the notebook source.

Numeric features and labels are embedded as rationals (`ℚ`).  Euclidean
distance ordering is represented by the squared Euclidean distance, which
is computable over `ℚ` and induces the same ordering (the square root is
monotone); theorems about distance ordering also state the ordering of the
real square roots explicitly.
-/

namespace ML2

/-- Error taxonomy from the spec, §7: `InvalidArgument` for shape/dimension
mismatches, `k` out of range and empty label sequences; `DegenerateFeature`
for zero-variance columns during standardization. -/
inductive MLError where
  | invalidArgument
  | degenerateFeature
deriving DecidableEq, Repr

/-- Squared Euclidean distance between two feature vectors.  The spec's
`query` sorts by Euclidean distance; sorting by the squared distance is
equivalent since `Real.sqrt` is monotone. -/
def sqDist (p q : List ℚ) : ℚ :=
  (List.zipWith (fun a b => (a - b) ^ 2) p q).sum

theorem sqDist_nonneg (p q : List ℚ) : 0 ≤ sqDist p q := by
  induction p generalizing q with
  | nil => simp [sqDist]
  | cons a p ih =>
    cases q with
    | nil => simp [sqDist]
    | cons b q =>
      simp only [sqDist, List.zipWith_cons_cons, List.sum_cons]
      exact add_nonneg (sq_nonneg _) (ih q)

theorem sqDist_eq_zero_iff {p q : List ℚ} (h : p.length = q.length) :
    sqDist p q = 0 ↔ p = q := by
  induction p generalizing q with
  | nil =>
    cases q with
    | nil => simp [sqDist]
    | cons b q => simp at h
  | cons a p ih =>
    cases q with
    | nil => simp at h
    | cons b q =>
      simp only [List.length_cons, Nat.succ_inj] at h
      simp only [sqDist, List.zipWith_cons_cons, List.sum_cons]
      constructor
      · intro h0
        have h1 : (a - b) ^ 2 = 0 ∧ (List.zipWith (fun a b => (a - b) ^ 2) p q).sum = 0 := by
          constructor
          · nlinarith [sqDist_nonneg p q, sq_nonneg (a - b),
              show sqDist p q = (List.zipWith (fun a b => (a - b) ^ 2) p q).sum from rfl]
          · nlinarith [sqDist_nonneg p q, sq_nonneg (a - b),
              show sqDist p q = (List.zipWith (fun a b => (a - b) ^ 2) p q).sum from rfl]
        have ha : a = b := by
          have := pow_eq_zero_iff (n := 2) (by norm_num) |>.mp h1.1
          linarith [sub_eq_zero.mp this]
        have hp : p = q := (ih h).mp h1.2
        simp [ha, hp]
      · intro he
        injection he with h1 h2
        subst h1; subst h2
        have hz : ∀ r : List ℚ, (List.zipWith (fun a b => (a - b) ^ 2) r r).sum = 0 := by
          intro r
          induction r with
          | nil => simp
          | cons c cs ihc => simp [List.zipWith_cons_cons, ihc]
        simp [hz]

/-- Modelled from the spec: the `NeighborIndex` component (§4.1) is absent
from the notebooks (they call the external library's `NearestNeighbors`);
it owns an immutable copy of the training observations captured at fit
time. -/
structure NeighborIndex where
  train : List (List ℚ)
deriving DecidableEq, Repr

/-- Modelled from the spec: `fit` stores the training features by value and
performs no computation beyond storage (brute force, no spatial tree). -/
def NeighborIndex.fit (trainFeatures : List (List ℚ)) : NeighborIndex :=
  ⟨trainFeatures⟩

/-- Dimension check used by `query`: every stored observation must have the
query point's dimension. -/
def NeighborIndex.dimOk (nn : NeighborIndex) (point : List ℚ) : Bool :=
  nn.train.all (fun obs => obs.length == point.length)

/-- Comparison used to order neighbor candidates: by squared distance, with
ties in distance broken by the original insertion index (the spec's stable
sort by distance over index-tagged candidates yields exactly this
lexicographic order, since the candidate list carries strictly increasing
indices). -/
def nbrLe (a b : ℚ × ℕ) : Prop :=
  a.1 < b.1 ∨ (a.1 = b.1 ∧ a.2 ≤ b.2)

instance : DecidableRel nbrLe := fun a b => by
  unfold nbrLe; infer_instance

instance : IsTotal (ℚ × ℕ) nbrLe := by
  constructor
  intro a b
  rcases lt_trichotomy a.1 b.1 with h | h | h
  · exact Or.inl (Or.inl h)
  · rcases Nat.le_total a.2 b.2 with h2 | h2
    · exact Or.inl (Or.inr ⟨h, h2⟩)
    · exact Or.inr (Or.inr ⟨h.symm, h2⟩)
  · exact Or.inr (Or.inl h)

instance : IsTrans (ℚ × ℕ) nbrLe := by
  constructor
  intro a b c hab hbc
  rcases hab with h1 | ⟨he1, hi1⟩ <;> rcases hbc with h2 | ⟨he2, hi2⟩
  · exact Or.inl (h1.trans h2)
  · exact Or.inl (he2 ▸ h1)
  · exact Or.inl (he1 ▸ h2)
  · exact Or.inr ⟨he1.trans he2, hi1.trans hi2⟩

/-- Candidate list for a query: the squared distance from `point` to every
stored observation, tagged with the observation's insertion index. -/
def NeighborIndex.distList (nn : NeighborIndex) (point : List ℚ) : List (ℚ × ℕ) :=
  (nn.train.map (sqDist point)).enum.map (fun p => (p.2, p.1))

/-- Modelled from the spec: `query(point, k)` computes the distance from
`point` to every stored observation, sorts ascending by distance (stable,
ties broken by insertion index), and returns the first `k` pairs of
(squared distance, index).  Fails with `InvalidArgument` when `k` exceeds
the number of stored observations or the point's dimension mismatches the
stored dimension. -/
def NeighborIndex.query (nn : NeighborIndex) (point : List ℚ) (k : ℕ) :
    Except MLError (List (ℚ × ℕ)) :=
  if k ≤ nn.train.length ∧ nn.dimOk point = true then
    .ok ((List.insertionSort nbrLe (nn.distList point)).take k)
  else
    .error .invalidArgument

theorem distList_length (nn : NeighborIndex) (point : List ℚ) :
    (nn.distList point).length = nn.train.length := by
  simp [NeighborIndex.distList]

theorem mem_distList {nn : NeighborIndex} {point : List ℚ} {q : ℚ × ℕ} :
    q ∈ nn.distList point ↔
      ∃ i, i < nn.train.length ∧ q = (sqDist point (nn.train.getD i []), i) := by
  constructor
  · intro hq
    simp only [NeighborIndex.distList, List.mem_map] at hq
    obtain ⟨p, hp, hpq⟩ := hq
    rw [List.mem_enum_iff_getElem?] at hp
    have hlt : p.1 < (nn.train.map (sqDist point)).length := by
      by_contra hge
      rw [List.getElem?_eq_none (Nat.le_of_not_lt hge)] at hp
      exact Option.noConfusion hp
    refine ⟨p.1, by simpa using hlt, ?_⟩
    rw [List.getElem?_eq_getElem hlt] at hp
    have hp2 : p.2 = (nn.train.map (sqDist point))[p.1] := by
      exact (Option.some_inj.mp hp).symm
    have hlt' : p.1 < nn.train.length := by simpa using hlt
    rw [← hpq, hp2]
    simp [List.getElem_map, List.getD_eq_getElem?_getD, List.getElem?_eq_getElem hlt']
  · rintro ⟨i, hi, rfl⟩
    simp only [NeighborIndex.distList, List.mem_map]
    refine ⟨(i, sqDist point (nn.train.getD i [])), ?_, rfl⟩
    rw [List.mem_enum_iff_getElem?]
    have hi' : i < (nn.train.map (sqDist point)).length := by simpa using hi
    rw [List.getElem?_eq_getElem hi']
    simp [List.getD_eq_getElem?_getD, List.getElem?_eq_getElem hi]

theorem sqDist_self (p : List ℚ) : sqDist p p = 0 :=
  (sqDist_eq_zero_iff rfl).mpr rfl

theorem getD_mem_of_lt {α : Type} {l : List α} {j : ℕ} (d : α) (h : j < l.length) :
    l.getD j d ∈ l := by
  rw [List.getD_eq_getElem?_getD, List.getElem?_eq_getElem h]
  exact List.getElem_mem h

theorem head?_take {α : Type} {l : List α} {k : ℕ} (hk : 1 ≤ k) :
    (l.take k).head? = l.head? := by
  cases l with
  | nil => simp
  | cons a t =>
    cases k with
    | zero => omega
    | succ m => simp

theorem dimOk_of_forall {nn : NeighborIndex} {point : List ℚ}
    (hdim : ∀ obs ∈ nn.train, obs.length = point.length) :
    nn.dimOk point = true := by
  simp only [NeighborIndex.dimOk, List.all_eq_true, beq_iff_eq]
  exact hdim

theorem nbrLe_fst_le {a b : ℚ × ℕ} (h : nbrLe a b) : a.1 ≤ b.1 := by
  rcases h with h | ⟨h, _⟩
  · exact le_of_lt h
  · exact le_of_eq h

/-- Core lemma behind C1: `query` succeeds and returns `k` sorted,
correctly-tagged distance pairs. -/
theorem query_sorted_ok (train : List (List ℚ)) (point : List ℚ) (k : ℕ)
    (_hk1 : 1 ≤ k) (hkn : k ≤ train.length)
    (hdim : ∀ obs ∈ train, obs.length = point.length) :
    ∃ res : List (ℚ × ℕ),
      (NeighborIndex.fit train).query point k = .ok res ∧
      res.length = k ∧
      List.Sorted nbrLe res ∧
      List.Sorted (fun a b : ℚ × ℕ => Real.sqrt (a.1 : ℝ) ≤ Real.sqrt (b.1 : ℝ)) res ∧
      ∀ q ∈ res, q.2 < train.length ∧ q.1 = sqDist point (train.getD q.2 []) := by
  have hdimOk : (NeighborIndex.fit train).dimOk point = true := dimOk_of_forall hdim
  have hq : (NeighborIndex.fit train).query point k =
      .ok ((List.insertionSort nbrLe ((NeighborIndex.fit train).distList point)).take k) := by
    unfold NeighborIndex.query
    rw [if_pos ⟨hkn, hdimOk⟩]
  refine ⟨_, hq, ?_, ?_, ?_, ?_⟩
  · rw [List.length_take, List.length_insertionSort, distList_length]
    exact Nat.min_eq_left hkn
  · exact List.Pairwise.sublist (List.take_sublist _ _)
      (List.sorted_insertionSort nbrLe _)
  · refine List.Pairwise.imp ?_ (List.Pairwise.sublist (List.take_sublist _ _)
      (List.sorted_insertionSort nbrLe _))
    intro a b hab
    exact Real.sqrt_le_sqrt (by exact_mod_cast nbrLe_fst_le hab)
  · intro q hq'
    have hmem : q ∈ List.insertionSort nbrLe ((NeighborIndex.fit train).distList point) :=
      List.mem_of_mem_take hq'
    rw [List.mem_insertionSort, mem_distList] at hmem
    obtain ⟨i, hi, rfl⟩ := hmem
    exact ⟨hi, rfl⟩

/-- C1: for every fitted `NeighborIndex` with `n` stored observations and
every query point of the stored dimension, `query(point, k)` with
`1 ≤ k ≤ n` returns exactly `k` (distance, index) pairs, sorted by
non-decreasing Euclidean distance (the pairs carry squared distances, and
both the squared distances and their real square roots — the Euclidean
distances — are non-decreasing), ties in distance broken by the original
insertion index of the training observations (the stable-sort order), and
every returned pair is the distance from `point` to the stored observation
at its index. -/
theorem knn_query_spec (train : List (List ℚ)) (point : List ℚ) (k : ℕ)
    (hk1 : 1 ≤ k) (hkn : k ≤ train.length)
    (hdim : ∀ obs ∈ train, obs.length = point.length) :
    ∃ res : List (ℚ × ℕ),
      (NeighborIndex.fit train).query point k = .ok res ∧
      res.length = k ∧
      List.Sorted nbrLe res ∧
      List.Sorted (fun a b : ℚ × ℕ => Real.sqrt (a.1 : ℝ) ≤ Real.sqrt (b.1 : ℝ)) res ∧
      ∀ q ∈ res, q.2 < train.length ∧ q.1 = sqDist point (train.getD q.2 []) :=
  query_sorted_ok train point k hk1 hkn hdim

/-- Witness for C1 at the training set `[[0],[2]]`, query point `[1]`,
`k = 2`. -/
theorem knn_query_spec_witness :
    (1 ≤ 2 ∧ 2 ≤ ([[(0 : ℚ)], [2]] : List (List ℚ)).length ∧
      ∀ obs ∈ ([[(0 : ℚ)], [2]] : List (List ℚ)), obs.length = [(1 : ℚ)].length) ∧
    (∃ res : List (ℚ × ℕ),
      (NeighborIndex.fit [[(0 : ℚ)], [2]]).query [1] 2 = .ok res ∧
      res.length = 2 ∧
      List.Sorted nbrLe res ∧
      List.Sorted (fun a b : ℚ × ℕ => Real.sqrt (a.1 : ℝ) ≤ Real.sqrt (b.1 : ℝ)) res ∧
      ∀ q ∈ res, q.2 < ([[(0 : ℚ)], [2]] : List (List ℚ)).length ∧
        q.1 = sqDist [1] (([[(0 : ℚ)], [2]] : List (List ℚ)).getD q.2 [])) :=
  ⟨⟨by decide, by decide, by decide⟩,
    knn_query_spec [[0], [2]] [1] 2 (by decide) (by decide) (by decide)⟩

/-- Core lemma behind C5: when the query point equals a stored
observation, the first query result has distance 0 and indexes an
observation equal to the point. -/
theorem query_self_first_ok (train : List (List ℚ)) (point : List ℚ) (k i : ℕ)
    (hk1 : 1 ≤ k) (hkn : k ≤ train.length)
    (hdim : ∀ obs ∈ train, obs.length = point.length)
    (hilt : i < train.length) (hi : train.getD i [] = point) :
    ∃ res j, (NeighborIndex.fit train).query point k = .ok res ∧
      res.head? = some (0, j) ∧ j < train.length ∧ train.getD j [] = point := by
  have hdimOk : (NeighborIndex.fit train).dimOk point = true := dimOk_of_forall hdim
  have hq : (NeighborIndex.fit train).query point k =
      .ok ((List.insertionSort nbrLe ((NeighborIndex.fit train).distList point)).take k) := by
    unfold NeighborIndex.query
    rw [if_pos ⟨hkn, hdimOk⟩]
  set srt := List.insertionSort nbrLe ((NeighborIndex.fit train).distList point) with hsrt
  have hzero_mem : ((0 : ℚ), i) ∈ srt := by
    rw [hsrt, List.mem_insertionSort, mem_distList]
    exact ⟨i, hilt, by
      rw [show (NeighborIndex.fit train).train.getD i [] = point from hi, sqDist_self]⟩
  obtain ⟨hd, tl, hcons⟩ : ∃ hd tl, srt = hd :: tl := by
    cases hsrt' : srt with
    | nil =>
      rw [hsrt'] at hzero_mem
      exact absurd hzero_mem (List.not_mem_nil _)
    | cons hd tl => exact ⟨hd, tl, rfl⟩
  have hsorted : List.Sorted nbrLe srt := List.sorted_insertionSort nbrLe _
  have hhd_mem : hd ∈ srt := by rw [hcons]; exact List.mem_cons_self _ _
  have hhd_dist : hd ∈ (NeighborIndex.fit train).distList point := by
    rw [hsrt, List.mem_insertionSort] at hhd_mem
    exact hhd_mem
  rw [mem_distList] at hhd_dist
  obtain ⟨j, hj, hhd_eq⟩ := hhd_dist
  have hhd_le : hd.1 ≤ 0 := by
    rcases List.mem_cons.mp (hcons ▸ hzero_mem) with heq | htl
    · rw [← heq]
    · exact nbrLe_fst_le (List.rel_of_sorted_cons (hcons ▸ hsorted) _ htl)
  have hhd_ge : 0 ≤ hd.1 := by
    rw [hhd_eq]
    exact sqDist_nonneg _ _
  have hhd_zero : hd.1 = 0 := le_antisymm hhd_le hhd_ge
  have hobs : train.getD j [] = point := by
    have hlen : point.length = (train.getD j []).length :=
      (hdim _ (getD_mem_of_lt [] hj)).symm
    have : sqDist point (train.getD j []) = 0 := by
      rw [← hhd_zero, hhd_eq]
      rfl
    exact ((sqDist_eq_zero_iff hlen).mp this).symm
  refine ⟨_, j, hq, ?_, hj, hobs⟩
  rw [head?_take hk1, hcons]
  have : hd = (0, j) := by
    have h2 : hd.2 = j := by rw [hhd_eq]
    exact Prod.ext hhd_zero h2
  rw [this]
  rfl

/-- C5: for every fitted `NeighborIndex` and every query point equal to
some stored training observation, `query(point, k)` includes an
observation equal to the point at distance 0, and it appears as the first
result. -/
theorem knn_query_self_first (train : List (List ℚ)) (point : List ℚ) (k i : ℕ)
    (hk1 : 1 ≤ k) (hkn : k ≤ train.length)
    (hdim : ∀ obs ∈ train, obs.length = point.length)
    (hilt : i < train.length) (hi : train.getD i [] = point) :
    ∃ res j, (NeighborIndex.fit train).query point k = .ok res ∧
      res.head? = some (0, j) ∧ j < train.length ∧ train.getD j [] = point :=
  query_self_first_ok train point k i hk1 hkn hdim hilt hi

/-- Witness for C5: query the stored point `[2]` in the index over
`[[0],[2]]` with `k = 1`. -/
theorem knn_query_self_first_witness :
    (1 ≤ 1 ∧ 1 ≤ ([[(0 : ℚ)], [2]] : List (List ℚ)).length ∧
      (∀ obs ∈ ([[(0 : ℚ)], [2]] : List (List ℚ)), obs.length = [(2 : ℚ)].length) ∧
      1 < ([[(0 : ℚ)], [2]] : List (List ℚ)).length ∧
      ([[(0 : ℚ)], [2]] : List (List ℚ)).getD 1 [] = [(2 : ℚ)]) ∧
    (∃ res j, (NeighborIndex.fit [[(0 : ℚ)], [2]]).query [2] 1 = .ok res ∧
      res.head? = some (0, j) ∧ j < ([[(0 : ℚ)], [2]] : List (List ℚ)).length ∧
      ([[(0 : ℚ)], [2]] : List (List ℚ)).getD j [] = [(2 : ℚ)]) :=
  ⟨⟨by decide, by decide, by decide, by decide, by decide⟩,
    knn_query_self_first [[0], [2]] [2] 1 1 (by decide) (by decide) (by decide)
      (by decide) (by decide)⟩

/-- Modelled from the spec: the `Predictor` component (§4.2) is absent from
the notebooks (they call the external library's `KNeighborsClassifier`); it
wraps an owned `NeighborIndex`, the label sequence and `k`.  Labels are
embedded as `ℚ` (categorical labels are encoded as distinct numerals). -/
structure Predictor where
  index : NeighborIndex
  labels : List ℚ
  k : ℕ
deriving DecidableEq, Repr

/-- Modelled from the spec: `fit` delegates storage to an owned
`NeighborIndex` and stores `k` and the label sequence. -/
def Predictor.fit (trainFeatures : List (List ℚ)) (trainLabels : List ℚ) (k : ℕ) :
    Predictor :=
  ⟨NeighborIndex.fit trainFeatures, trainLabels, k⟩

/-- Labels of the k nearest neighbors of `point`, in neighbor order
(closest first), looked up from the stored label sequence by the indices
returned by `query`. -/
def Predictor.neighborLabels (p : Predictor) (point : List ℚ) :
    Except MLError (List ℚ) :=
  match p.index.query point p.k with
  | .ok nbrs => .ok (nbrs.map (fun q => p.labels.getD q.2 0))
  | .error e => .error e

/-- One step of the vote count scan: the current best label is replaced
only when the candidate has a strictly higher vote count, so the first
label encountered with the maximal count wins. -/
def voteStep (full : List ℚ) (best c : ℚ) : ℚ :=
  if full.count best < full.count c then c else best

/-- Majority vote over the neighbor labels: returns the label with the
highest vote count, plurality ties broken in favor of the label
encountered first in neighbor order. -/
def voteWinner (ls : List ℚ) : Option ℚ :=
  match ls with
  | [] => none
  | l₀ :: rest => some (rest.foldl (voteStep ls) l₀)

/-- Modelled from the spec: `predictClassification` retrieves the k
nearest neighbor labels and returns the label with the highest vote
count. -/
def Predictor.predictClassification (p : Predictor) (point : List ℚ) :
    Except MLError ℚ :=
  match p.neighborLabels point with
  | .ok ls =>
    match voteWinner ls with
    | some l => .ok l
    | none => .error .invalidArgument
  | .error e => .error e

/-- Modelled from the spec: `predictRegression` retrieves the k nearest
neighbor labels and returns their arithmetic mean. -/
def Predictor.predictRegression (p : Predictor) (point : List ℚ) :
    Except MLError ℚ :=
  match p.neighborLabels point with
  | .ok ls =>
    if ls.length = 0 then .error .invalidArgument
    else .ok (ls.sum / (ls.length : ℚ))
  | .error e => .error e

theorem voteFold_count_le (full : List ℚ) :
    ∀ (l : List ℚ) (b : ℚ),
      full.count b ≤ full.count (l.foldl (voteStep full) b) := by
  intro l
  induction l with
  | nil => intro b; simp
  | cons c t ih =>
    intro b
    have h1 : full.count b ≤ full.count (voteStep full b c) := by
      unfold voteStep
      split
      · omega
      · exact le_refl _
    simpa using h1.trans (ih (voteStep full b c))

theorem voteFold_mem (full : List ℚ) :
    ∀ (l : List ℚ) (b : ℚ),
      l.foldl (voteStep full) b = b ∨ l.foldl (voteStep full) b ∈ l := by
  intro l
  induction l with
  | nil => intro b; exact Or.inl rfl
  | cons c t ih =>
    intro b
    rw [List.foldl_cons]
    rcases ih (voteStep full b c) with h | h
    · rw [h]
      unfold voteStep
      split
      · exact Or.inr (List.mem_cons_self _ _)
      · exact Or.inl rfl
    · exact Or.inr (List.mem_cons_of_mem _ h)

theorem voteFold_max (full : List ℚ) :
    ∀ (l : List ℚ) (b : ℚ), ∀ x ∈ l,
      full.count x ≤ full.count (l.foldl (voteStep full) b) := by
  intro l
  induction l with
  | nil => intro b x hx; exact absurd hx (List.not_mem_nil _)
  | cons c t ih =>
    intro b x hx
    rw [List.foldl_cons]
    rcases List.mem_cons.mp hx with rfl | hx'
    · have h1 : full.count x ≤ full.count (voteStep full b x) := by
        unfold voteStep
        split
        · exact le_refl _
        · omega
      exact h1.trans (voteFold_count_le full t _)
    · exact ih _ x hx'

theorem voteFold_first (full : List ℚ) :
    ∀ (l : List ℚ) (b : ℚ), ∃ pre post,
      b :: l = pre ++ (l.foldl (voteStep full) b) :: post ∧
      ∀ x ∈ pre, full.count x < full.count (l.foldl (voteStep full) b) := by
  intro l
  induction l with
  | nil => intro b; exact ⟨[], [], rfl, by simp⟩
  | cons c t ih =>
    intro b
    rw [List.foldl_cons]
    by_cases hbc : full.count b < full.count c
    · have hb' : voteStep full b c = c := if_pos hbc
      obtain ⟨pre, post, hdecomp, hpre⟩ := ih c
      rw [hb']
      refine ⟨b :: pre, post, ?_, ?_⟩
      · rw [List.cons_append, ← hdecomp]
      · intro x hx
        rcases List.mem_cons.mp hx with rfl | hx'
        · exact lt_of_lt_of_le hbc (voteFold_count_le full t c)
        · exact hpre x hx'
    · have hb' : voteStep full b c = b := if_neg hbc
      obtain ⟨pre, post, hdecomp, hpre⟩ := ih b
      rw [hb']
      cases pre with
      | nil =>
        simp only [List.nil_append] at hdecomp
        refine ⟨[], c :: t, ?_, by simp⟩
        rw [List.nil_append, ← List.head_eq_of_cons_eq hdecomp]
      | cons p0 pre' =>
        have hp0 : p0 = b := (List.head_eq_of_cons_eq hdecomp).symm
        have ht : t = pre' ++ (t.foldl (voteStep full) b) :: post :=
          List.tail_eq_of_cons_eq hdecomp
        refine ⟨b :: c :: pre', post, ?_, ?_⟩
        · rw [List.cons_append, List.cons_append, ← ht]
        · intro x hx
          have hbr : full.count b < full.count (t.foldl (voteStep full) b) := by
            have := hpre p0 (List.mem_cons_self _ _)
            rwa [hp0] at this
          rcases List.mem_cons.mp hx with rfl | hx'
          · exact hbr
          · rcases List.mem_cons.mp hx' with rfl | hx''
            · exact lt_of_le_of_lt (Nat.le_of_not_lt hbc) hbr
            · exact hpre x (hp0 ▸ List.mem_cons_of_mem _ hx'')

/-- Full specification of `voteWinner` on a non-empty label list: it
returns a label of the list whose vote count is maximal, and every label
occurring strictly before the winner's selected occurrence has a strictly
smaller count (first-encountered tie-breaking). -/
theorem voteWinner_spec (ls : List ℚ) (hls : ls ≠ []) :
    ∃ w, voteWinner ls = some w ∧ w ∈ ls ∧
      (∀ x ∈ ls, ls.count x ≤ ls.count w) ∧
      ∃ pre post, ls = pre ++ w :: post ∧
        ∀ x ∈ pre, ls.count x < ls.count w := by
  cases ls with
  | nil => exact absurd rfl hls
  | cons l₀ rest =>
    refine ⟨rest.foldl (voteStep (l₀ :: rest)) l₀, rfl, ?_, ?_, ?_⟩
    · rcases voteFold_mem (l₀ :: rest) rest l₀ with h | h
      · rw [h]; exact List.mem_cons_self _ _
      · exact List.mem_cons_of_mem _ h
    · intro x hx
      rcases List.mem_cons.mp hx with heq | hx'
      · rw [heq]
        exact voteFold_count_le (l₀ :: rest) rest l₀
      · exact voteFold_max (l₀ :: rest) rest l₀ x hx'
    · exact voteFold_first (l₀ :: rest) rest l₀

theorem neighborLabels_spec (train : List (List ℚ)) (labels : List ℚ) (k : ℕ)
    (point : List ℚ) (hk1 : 1 ≤ k) (hkn : k ≤ train.length)
    (hdim : ∀ obs ∈ train, obs.length = point.length) :
    ∃ ls, (Predictor.fit train labels k).neighborLabels point = .ok ls ∧
      ls.length = k := by
  obtain ⟨res, hq, hlen, -, -, -⟩ := query_sorted_ok train point k hk1 hkn hdim
  refine ⟨res.map (fun q => labels.getD q.2 0), ?_, by simp [hlen]⟩
  unfold Predictor.neighborLabels
  rw [show (Predictor.fit train labels k).index.query point (Predictor.fit train labels k).k
      = (NeighborIndex.fit train).query point k from rfl, hq]
  rfl

/-- Core lemma behind C2: under the query preconditions,
`predictClassification` succeeds and returns a maximal-count,
first-encountered neighbor label. -/
theorem predictClassification_ok (train : List (List ℚ)) (labels : List ℚ) (k : ℕ)
    (point : List ℚ) (hk1 : 1 ≤ k) (hkn : k ≤ train.length)
    (hdim : ∀ obs ∈ train, obs.length = point.length) :
    ∃ ls w,
      (Predictor.fit train labels k).neighborLabels point = .ok ls ∧
      ls.length = k ∧
      (Predictor.fit train labels k).predictClassification point = .ok w ∧
      w ∈ ls ∧
      (∀ x ∈ ls, ls.count x ≤ ls.count w) ∧
      (∃ pre post, ls = pre ++ w :: post ∧
        ∀ x ∈ pre, ls.count x < ls.count w) := by
  obtain ⟨ls, hnl, hlen⟩ := neighborLabels_spec train labels k point hk1 hkn hdim
  have hne : ls ≠ [] := List.ne_nil_of_length_pos (by omega)
  obtain ⟨w, hw, hmem, hmax, hfirst⟩ := voteWinner_spec ls hne
  refine ⟨ls, w, hnl, hlen, ?_, hmem, hmax, hfirst⟩
  have hred : (Predictor.fit train labels k).predictClassification point =
      match voteWinner ls with
      | some l => .ok l
      | none => .error .invalidArgument := by
    unfold Predictor.predictClassification
    rw [hnl]
  rw [hred, hw]

/-- C2: for every fitted `Predictor`, `predictClassification(point)`
returns the label with the highest vote count among the labels of the k
nearest neighbors of `point`, plurality ties broken by first-encountered
order (the winner's occurrence is preceded only by labels of strictly
smaller count); on the training set `{(1,1)→A, (1,2)→A, (10,10)→B,
(10,11)→B}` with `k = 1` (labels encoded `A = 0`, `B = 1`), querying
`(1, 1.5)` predicts `A` and querying `(10, 10.5)` predicts `B`. -/
theorem knn_predictClassification_spec :
    (∀ (train : List (List ℚ)) (labels : List ℚ) (k : ℕ) (point : List ℚ),
      1 ≤ k → k ≤ train.length → (∀ obs ∈ train, obs.length = point.length) →
      ∃ ls w,
        (Predictor.fit train labels k).neighborLabels point = .ok ls ∧
        ls.length = k ∧
        (Predictor.fit train labels k).predictClassification point = .ok w ∧
        w ∈ ls ∧
        (∀ x ∈ ls, ls.count x ≤ ls.count w) ∧
        (∃ pre post, ls = pre ++ w :: post ∧
          ∀ x ∈ pre, ls.count x < ls.count w)) ∧
    (Predictor.fit [[1, 1], [1, 2], [10, 10], [10, 11]] [0, 0, 1, 1]
        1).predictClassification [1, 3 / 2] = .ok 0 ∧
    (Predictor.fit [[1, 1], [1, 2], [10, 10], [10, 11]] [0, 0, 1, 1]
        1).predictClassification [10, 21 / 2] = .ok 1 := by
  refine ⟨?_, ?_, ?_⟩
  · intro train labels k point hk1 hkn hdim
    exact predictClassification_ok train labels k point hk1 hkn hdim
  · norm_num [Predictor.fit, Predictor.predictClassification, Predictor.neighborLabels,
      NeighborIndex.fit, NeighborIndex.query, NeighborIndex.dimOk, NeighborIndex.distList,
      sqDist, List.enum, List.enumFrom, List.insertionSort, List.orderedInsert, nbrLe,
      voteWinner, voteStep, List.getD, List.count_cons]
  · norm_num [Predictor.fit, Predictor.predictClassification, Predictor.neighborLabels,
      NeighborIndex.fit, NeighborIndex.query, NeighborIndex.dimOk, NeighborIndex.distList,
      sqDist, List.enum, List.enumFrom, List.insertionSort, List.orderedInsert, nbrLe,
      voteWinner, voteStep, List.getD, List.count_cons]

/-- Witness for C2's universally quantified part at the scenario training
set, query point `(1, 1.5)` and `k = 1`. -/
theorem knn_predictClassification_spec_witness :
    (1 ≤ 1 ∧
      1 ≤ ([[1, 1], [1, 2], [10, 10], [10, 11]] : List (List ℚ)).length ∧
      ∀ obs ∈ ([[1, 1], [1, 2], [10, 10], [10, 11]] : List (List ℚ)),
        obs.length = [(1 : ℚ), 3 / 2].length) ∧
    (∃ ls w,
      (Predictor.fit [[1, 1], [1, 2], [10, 10], [10, 11]] [0, 0, 1, 1]
          1).neighborLabels [1, 3 / 2] = .ok ls ∧
      ls.length = 1 ∧
      (Predictor.fit [[1, 1], [1, 2], [10, 10], [10, 11]] [0, 0, 1, 1]
          1).predictClassification [1, 3 / 2] = .ok w ∧
      w ∈ ls ∧
      (∀ x ∈ ls, ls.count x ≤ ls.count w) ∧
      (∃ pre post, ls = pre ++ w :: post ∧
        ∀ x ∈ pre, ls.count x < ls.count w)) :=
  ⟨⟨by decide, by decide, by decide⟩,
    knn_predictClassification_spec.1 [[1, 1], [1, 2], [10, 10], [10, 11]]
      [0, 0, 1, 1] 1 [1, 3 / 2] (by decide) (by decide) (by decide)⟩

/-- Core lemma behind C6 (and the regression score): under the query
preconditions, `predictRegression` succeeds and returns the arithmetic
mean of the k neighbor labels. -/
theorem predictRegression_mean_ok (train : List (List ℚ)) (labels : List ℚ) (k : ℕ)
    (point : List ℚ) (hk1 : 1 ≤ k) (hkn : k ≤ train.length)
    (hdim : ∀ obs ∈ train, obs.length = point.length) :
    ∃ ls, (Predictor.fit train labels k).neighborLabels point = .ok ls ∧
      ls.length = k ∧
      (Predictor.fit train labels k).predictRegression point =
        .ok (ls.sum / (k : ℚ)) := by
  obtain ⟨ls, hnl, hlen⟩ := neighborLabels_spec train labels k point hk1 hkn hdim
  refine ⟨ls, hnl, hlen, ?_⟩
  have hred : (Predictor.fit train labels k).predictRegression point =
      (if ls.length = 0 then .error .invalidArgument
       else .ok (ls.sum / (ls.length : ℚ))) := by
    unfold Predictor.predictRegression
    rw [hnl]
  rw [hred, if_neg (by omega), hlen]

/-- Core lemma behind C6's degenerate case: a `k = 1` self-query returns
the stored point's own label. -/
theorem predictRegression_self_ok (train : List (List ℚ)) (labels : List ℚ)
    (point : List ℚ) (i : ℕ) (hilt : i < train.length)
    (hdim : ∀ obs ∈ train, obs.length = point.length)
    (hipt : train.getD i [] = point)
    (hcons : ∀ j, j < train.length → train.getD j [] = point →
      labels.getD j 0 = labels.getD i 0) :
    (Predictor.fit train labels 1).predictRegression point =
      .ok (labels.getD i 0) := by
  have h1len : 1 ≤ train.length := by omega
  obtain ⟨res, j, hq, hhead, hj, hjp⟩ :=
    query_self_first_ok train point 1 i (le_refl 1) h1len hdim hilt hipt
  obtain ⟨res', hq', hlen', -, -, -⟩ :=
    query_sorted_ok train point 1 (le_refl 1) h1len hdim
  have hres : res = res' := by
    rw [hq] at hq'
    injection hq'
  subst hres
  have hres_eq : res = [(0, j)] := by
    cases res with
    | nil => simp at hlen'
    | cons a t =>
      cases t with
      | nil =>
        simp only [List.head?_cons, Option.some_inj] at hhead
        rw [hhead]
      | cons b u => simp at hlen'
  have hnl : (Predictor.fit train labels 1).neighborLabels point =
      .ok [labels.getD j 0] := by
    unfold Predictor.neighborLabels
    rw [show (Predictor.fit train labels 1).index.query point
        (Predictor.fit train labels 1).k
        = (NeighborIndex.fit train).query point 1 from rfl, hq, hres_eq]
    rfl
  have hred : (Predictor.fit train labels 1).predictRegression point =
      (if ([labels.getD j 0] : List ℚ).length = 0 then .error .invalidArgument
       else .ok (([labels.getD j 0] : List ℚ).sum /
         (([labels.getD j 0] : List ℚ).length : ℚ))) := by
    unfold Predictor.predictRegression
    rw [hnl]
  rw [hred, if_neg (by simp)]
  have : ([labels.getD j 0] : List ℚ).sum /
      (([labels.getD j 0] : List ℚ).length : ℚ) = labels.getD j 0 := by
    simp
  rw [this, hcons j hj hjp]

/-- C6: for every fitted `Predictor`, `predictRegression(point)` returns
the arithmetic mean of the numeric labels of the k nearest neighbors of
`point`; in particular, when `point` is a training observation and `k = 1`
(self-inclusion enabled, labels consistent across duplicate observations),
`predictRegression` returns that observation's own label. -/
theorem knn_predictRegression_spec :
    (∀ (train : List (List ℚ)) (labels : List ℚ) (k : ℕ) (point : List ℚ),
      1 ≤ k → k ≤ train.length → (∀ obs ∈ train, obs.length = point.length) →
      ∃ ls, (Predictor.fit train labels k).neighborLabels point = .ok ls ∧
        ls.length = k ∧
        (Predictor.fit train labels k).predictRegression point =
          .ok (ls.sum / (k : ℚ))) ∧
    (∀ (train : List (List ℚ)) (labels : List ℚ) (point : List ℚ) (i : ℕ),
      i < train.length → (∀ obs ∈ train, obs.length = point.length) →
      train.getD i [] = point →
      (∀ j, j < train.length → train.getD j [] = point →
        labels.getD j 0 = labels.getD i 0) →
      (Predictor.fit train labels 1).predictRegression point =
        .ok (labels.getD i 0)) :=
  ⟨fun train labels k point hk1 hkn hdim =>
      predictRegression_mean_ok train labels k point hk1 hkn hdim,
    fun train labels point i hilt hdim hipt hcons =>
      predictRegression_self_ok train labels point i hilt hdim hipt hcons⟩

/-- Witness for C6: mean prediction on the index over `[[5],[7]]` with
labels `[2,3]`, and the degenerate `k = 1` self-query at the stored point
`[7]`. -/
theorem knn_predictRegression_spec_witness :
    ((1 ≤ 2 ∧ 2 ≤ ([[5], [7]] : List (List ℚ)).length ∧
        ∀ obs ∈ ([[5], [7]] : List (List ℚ)), obs.length = [(6 : ℚ)].length) ∧
      ∃ ls, (Predictor.fit [[5], [7]] [2, 3] 2).neighborLabels [6] = .ok ls ∧
        ls.length = 2 ∧
        (Predictor.fit [[5], [7]] [2, 3] 2).predictRegression [6] =
          .ok (ls.sum / (2 : ℚ))) ∧
    ((1 < ([[5], [7]] : List (List ℚ)).length ∧
        (∀ obs ∈ ([[5], [7]] : List (List ℚ)), obs.length = [(7 : ℚ)].length) ∧
        ([[5], [7]] : List (List ℚ)).getD 1 [] = [(7 : ℚ)] ∧
        (∀ j, j < ([[5], [7]] : List (List ℚ)).length →
          ([[5], [7]] : List (List ℚ)).getD j [] = [(7 : ℚ)] →
          ([2, 3] : List ℚ).getD j 0 = ([2, 3] : List ℚ).getD 1 0)) ∧
      (Predictor.fit [[5], [7]] [2, 3] 1).predictRegression [7] =
        .ok (([2, 3] : List ℚ).getD 1 0)) :=
  ⟨⟨⟨by decide, by decide, by decide⟩,
      knn_predictRegression_spec.1 [[5], [7]] [2, 3] 2 [6]
        (by decide) (by decide) (by decide)⟩,
    ⟨⟨by decide, by decide, by decide, by decide⟩,
      knn_predictRegression_spec.2 [[5], [7]] [2, 3] [7] 1
        (by decide) (by decide) (by decide) (by decide)⟩⟩

/-- Sequential error-propagating map over the test set, as a
loop-with-early-exit over predictions behaves: the first failing
prediction aborts the scoring call. -/
def mapOrErr (f : List ℚ → Except MLError ℚ) : List (List ℚ) → Except MLError (List ℚ)
  | [] => .ok []
  | x :: t =>
    match f x, mapOrErr f t with
    | .ok y, .ok ys => .ok (y :: ys)
    | .error e, _ => .error e
    | .ok _, .error e => .error e

/-- Modelled from the spec: classification score = fraction of correct
predictions (accuracy), accumulated over the prediction/label pairs;
fails with `InvalidArgument` on an empty label sequence. -/
def Predictor.scoreClassification (p : Predictor) (testF : List (List ℚ))
    (testL : List ℚ) : Except MLError ℚ :=
  if testL.isEmpty then .error .invalidArgument
  else
    match mapOrErr p.predictClassification testF with
    | .ok preds =>
        .ok (((preds.zip testL).foldl
          (fun acc q => if q.1 = q.2 then acc + 1 else acc) 0) / (testL.length : ℚ))
    | .error e => .error e

/-- Modelled from the spec: regression score R² = 1 − SS_res/SS_tot with
SS_tot computed against the mean of the test labels, both sums accumulated
by a fold; fails with `InvalidArgument` on an empty label sequence. -/
def Predictor.scoreRegression (p : Predictor) (testF : List (List ℚ))
    (testL : List ℚ) : Except MLError ℚ :=
  if testL.isEmpty then .error .invalidArgument
  else
    match mapOrErr p.predictRegression testF with
    | .ok preds =>
        let mu := testL.sum / (testL.length : ℚ)
        let ssRes := (preds.zip testL).foldl (fun acc q => acc + (q.2 - q.1) ^ 2) 0
        let ssTot := testL.foldl (fun acc y => acc + (y - mu) ^ 2) 0
        .ok (1 - ssRes / ssTot)
    | .error e => .error e

theorem foldl_add_map_sum {α : Type} (f : α → ℚ) :
    ∀ (l : List α) (a : ℚ),
      l.foldl (fun acc x => acc + f x) a = a + (l.map f).sum := by
  intro l
  induction l with
  | nil => intro a; simp
  | cons x t ih =>
    intro a
    rw [List.foldl_cons, ih]
    simp
    ring

theorem foldl_match_count :
    ∀ (l : List (ℚ × ℚ)) (a : ℚ),
      l.foldl (fun acc q => if q.1 = q.2 then acc + 1 else acc) a
        = a + ((l.countP (fun q => decide (q.1 = q.2))) : ℚ) := by
  intro l
  induction l with
  | nil => intro a; simp
  | cons x t ih =>
    intro a
    rw [List.foldl_cons]
    by_cases h : x.1 = x.2
    · rw [if_pos h, ih, List.countP_cons, if_pos (by simp [h])]
      push_cast
      ring
    · rw [if_neg h, ih, List.countP_cons, if_neg (by simp [h])]
      push_cast
      ring

theorem mapOrErr_classification_ok (train : List (List ℚ)) (labels : List ℚ)
    (k : ℕ) (testF : List (List ℚ)) (hk1 : 1 ≤ k) (hkn : k ≤ train.length)
    (hdim : ∀ pt ∈ testF, ∀ obs ∈ train, obs.length = pt.length) :
    ∃ preds, mapOrErr (Predictor.fit train labels k).predictClassification testF
      = .ok preds ∧ preds.length = testF.length := by
  induction testF with
  | nil => exact ⟨[], rfl, rfl⟩
  | cons pt t ih =>
    obtain ⟨preds, hpreds, hplen⟩ :=
      ih (fun pt' h' => hdim pt' (List.mem_cons_of_mem _ h'))
    obtain ⟨ls, w, -, -, hpc, -, -, -⟩ :=
      predictClassification_ok train labels k pt hk1 hkn
        (hdim pt (List.mem_cons_self _ _))
    refine ⟨w :: preds, ?_, by simp [hplen]⟩
    unfold mapOrErr
    rw [hpc, hpreds]

theorem mapOrErr_regression_ok (train : List (List ℚ)) (labels : List ℚ)
    (k : ℕ) (testF : List (List ℚ)) (hk1 : 1 ≤ k) (hkn : k ≤ train.length)
    (hdim : ∀ pt ∈ testF, ∀ obs ∈ train, obs.length = pt.length) :
    ∃ preds, mapOrErr (Predictor.fit train labels k).predictRegression testF
      = .ok preds ∧ preds.length = testF.length := by
  induction testF with
  | nil => exact ⟨[], rfl, rfl⟩
  | cons pt t ih =>
    obtain ⟨preds, hpreds, hplen⟩ :=
      ih (fun pt' h' => hdim pt' (List.mem_cons_of_mem _ h'))
    obtain ⟨ls, -, -, hpr⟩ :=
      predictRegression_mean_ok train labels k pt hk1 hkn
        (hdim pt (List.mem_cons_self _ _))
    refine ⟨ls.sum / (k : ℚ) :: preds, ?_, by simp [hplen]⟩
    unfold mapOrErr
    rw [hpr, hpreds]

theorem not_isEmpty_of_ne_nil {l : List ℚ} (h : l ≠ []) :
    ¬(l.isEmpty = true) := by
  simp only [List.isEmpty_iff]
  exact h

/-- C7: for every fitted `Predictor` and every non-empty test set,
`score` returns, for classification, the fraction of predictions equal to
the true labels (1.0 when all match, 0.0 when all are wrong), and for
regression, `R² = 1 − SS_res/SS_tot` with `SS_tot` computed against the
mean of the test labels. -/
theorem knn_score_spec :
    (∀ (train : List (List ℚ)) (labels : List ℚ) (k : ℕ)
        (testF : List (List ℚ)) (testL : List ℚ),
      1 ≤ k → k ≤ train.length →
      (∀ pt ∈ testF, ∀ obs ∈ train, obs.length = pt.length) →
      testL ≠ [] → testF.length = testL.length →
      ∃ preds,
        mapOrErr (Predictor.fit train labels k).predictClassification testF
          = .ok preds ∧
        preds.length = testL.length ∧
        (Predictor.fit train labels k).scoreClassification testF testL =
          .ok ((((preds.zip testL).countP (fun q => decide (q.1 = q.2))) : ℚ) /
            (testL.length : ℚ)) ∧
        ((∀ q ∈ preds.zip testL, q.1 = q.2) →
          (Predictor.fit train labels k).scoreClassification testF testL = .ok 1) ∧
        ((∀ q ∈ preds.zip testL, q.1 ≠ q.2) →
          (Predictor.fit train labels k).scoreClassification testF testL = .ok 0)) ∧
    (∀ (train : List (List ℚ)) (labels : List ℚ) (k : ℕ)
        (testF : List (List ℚ)) (testL : List ℚ),
      1 ≤ k → k ≤ train.length →
      (∀ pt ∈ testF, ∀ obs ∈ train, obs.length = pt.length) →
      testL ≠ [] →
      ∃ preds,
        mapOrErr (Predictor.fit train labels k).predictRegression testF
          = .ok preds ∧
        (Predictor.fit train labels k).scoreRegression testF testL =
          .ok (1 - ((preds.zip testL).map (fun q => (q.2 - q.1) ^ 2)).sum /
            ((testL.map
              (fun y => (y - testL.sum / (testL.length : ℚ)) ^ 2)).sum))) := by
  constructor
  · intro train labels k testF testL hk1 hkn hdim htL hflen
    obtain ⟨preds, hpreds, hplen⟩ :=
      mapOrErr_classification_ok train labels k testF hk1 hkn hdim
    have hplen' : preds.length = testL.length := by rw [hplen, hflen]
    have hlenpos : 0 < testL.length := List.length_pos.mpr htL
    have hscore : (Predictor.fit train labels k).scoreClassification testF testL =
        .ok (((preds.zip testL).foldl
          (fun acc q => if q.1 = q.2 then acc + 1 else acc) 0) /
            (testL.length : ℚ)) := by
      unfold Predictor.scoreClassification
      rw [if_neg (not_isEmpty_of_ne_nil htL), hpreds]
    have hfold := foldl_match_count (preds.zip testL) 0
    rw [zero_add] at hfold
    refine ⟨preds, hpreds, hplen', ?_, ?_, ?_⟩
    · rw [hscore, hfold]
    · intro hall
      rw [hscore, hfold]
      have hcount : (preds.zip testL).countP (fun q => decide (q.1 = q.2)) =
          (preds.zip testL).length := by
        rw [List.countP_eq_length]
        intro q hq
        simp [hall q hq]
      rw [hcount, List.length_zip, hplen', Nat.min_self]
      have hne0 : (testL.length : ℚ) ≠ 0 := by
        exact_mod_cast Nat.pos_iff_ne_zero.mp hlenpos
      rw [div_self hne0]
    · intro hall
      rw [hscore, hfold]
      have hcount : (preds.zip testL).countP (fun q => decide (q.1 = q.2)) = 0 := by
        rw [List.countP_eq_zero]
        intro q hq
        simp [hall q hq]
      rw [hcount]
      simp
  · intro train labels k testF testL hk1 hkn hdim htL
    obtain ⟨preds, hpreds, -⟩ :=
      mapOrErr_regression_ok train labels k testF hk1 hkn hdim
    have hscore : (Predictor.fit train labels k).scoreRegression testF testL =
        .ok (1 - ((preds.zip testL).foldl (fun acc q => acc + (q.2 - q.1) ^ 2) 0) /
          (testL.foldl
            (fun acc y => acc + (y - testL.sum / (testL.length : ℚ)) ^ 2) 0)) := by
      unfold Predictor.scoreRegression
      rw [if_neg (not_isEmpty_of_ne_nil htL), hpreds]
    refine ⟨preds, hpreds, ?_⟩
    rw [hscore, foldl_add_map_sum (fun q => (q.2 - q.1) ^ 2) (preds.zip testL) 0,
      foldl_add_map_sum (fun y => (y - testL.sum / (testL.length : ℚ)) ^ 2) testL 0]
    rw [zero_add, zero_add]

/-- Witness for C7 at the predictor fitted on `[[5],[7]]` with labels
`[2,3]`, `k = 1`, scoring the training set itself. -/
theorem knn_score_spec_witness :
    ((1 ≤ 1 ∧ 1 ≤ ([[5], [7]] : List (List ℚ)).length ∧
        (∀ pt ∈ ([[5], [7]] : List (List ℚ)),
          ∀ obs ∈ ([[5], [7]] : List (List ℚ)), obs.length = pt.length) ∧
        ([2, 3] : List ℚ) ≠ [] ∧
        ([[5], [7]] : List (List ℚ)).length = ([2, 3] : List ℚ).length) ∧
      ∃ preds,
        mapOrErr (Predictor.fit [[5], [7]] [2, 3] 1).predictClassification
          [[5], [7]] = .ok preds ∧
        preds.length = ([2, 3] : List ℚ).length ∧
        (Predictor.fit [[5], [7]] [2, 3] 1).scoreClassification [[5], [7]] [2, 3] =
          .ok ((((preds.zip [2, 3]).countP (fun q => decide (q.1 = q.2))) : ℚ) /
            ((([2, 3] : List ℚ).length) : ℚ)) ∧
        ((∀ q ∈ preds.zip [2, 3], q.1 = q.2) →
          (Predictor.fit [[5], [7]] [2, 3] 1).scoreClassification [[5], [7]] [2, 3] =
            .ok 1) ∧
        ((∀ q ∈ preds.zip [2, 3], q.1 ≠ q.2) →
          (Predictor.fit [[5], [7]] [2, 3] 1).scoreClassification [[5], [7]] [2, 3] =
            .ok 0)) ∧
    ∃ preds,
      mapOrErr (Predictor.fit [[5], [7]] [2, 3] 1).predictRegression
        [[5], [7]] = .ok preds ∧
      (Predictor.fit [[5], [7]] [2, 3] 1).scoreRegression [[5], [7]] [2, 3] =
        .ok (1 - ((preds.zip [2, 3]).map (fun q => (q.2 - q.1) ^ 2)).sum /
          ((([2, 3] : List ℚ).map
            (fun y => (y - ([2, 3] : List ℚ).sum /
              ((([2, 3] : List ℚ).length) : ℚ)) ^ 2)).sum)) :=
  ⟨⟨⟨by decide, by decide, by decide, by decide, by decide⟩,
      knn_score_spec.1 [[5], [7]] [2, 3] 1 [[5], [7]] [2, 3]
        (by decide) (by decide) (by decide) (by decide) (by decide)⟩,
    knn_score_spec.2 [[5], [7]] [2, 3] 1 [[5], [7]] [2, 3]
      (by decide) (by decide) (by decide) (by decide)⟩

theorem dimOk_iff {nn : NeighborIndex} {point : List ℚ} :
    nn.dimOk point = true ↔ ∀ obs ∈ nn.train, obs.length = point.length := by
  simp [NeighborIndex.dimOk, List.all_eq_true]

/-- C8: the operations fail with `InvalidArgument` exactly on the spec's
listed conditions: `query` fails iff `k` exceeds the number of stored
observations or the query point's dimension mismatches a stored
observation's dimension, and both scoring operations fail iff the test
label sequence is empty (for a well-formed fitted predictor and test set,
where predictions themselves cannot fail). -/
theorem knn_error_conditions :
    (∀ (nn : NeighborIndex) (point : List ℚ) (k : ℕ),
      nn.query point k = .error .invalidArgument ↔
        (nn.train.length < k ∨ ∃ obs ∈ nn.train, obs.length ≠ point.length)) ∧
    (∀ (train : List (List ℚ)) (labels : List ℚ) (k : ℕ)
        (testF : List (List ℚ)) (testL : List ℚ),
      1 ≤ k → k ≤ train.length →
      (∀ pt ∈ testF, ∀ obs ∈ train, obs.length = pt.length) →
      (((Predictor.fit train labels k).scoreClassification testF testL =
          .error .invalidArgument) ↔ testL = []) ∧
      (((Predictor.fit train labels k).scoreRegression testF testL =
          .error .invalidArgument) ↔ testL = [])) := by
  constructor
  · intro nn point k
    unfold NeighborIndex.query
    by_cases h : k ≤ nn.train.length ∧ nn.dimOk point = true
    · rw [if_pos h]
      constructor
      · intro hc
        exact absurd hc (by simp)
      · rintro (hlt | ⟨obs, hobs, hne⟩)
        · omega
        · exact absurd (dimOk_iff.mp h.2 obs hobs) hne
    · rw [if_neg h]
      constructor
      · intro _
        by_cases hk : k ≤ nn.train.length
        · right
          have hd : ¬nn.dimOk point = true := fun hd => h ⟨hk, hd⟩
          rw [dimOk_iff] at hd
          push_neg at hd
          exact hd
        · left
          omega
      · intro _
        rfl
  · intro train labels k testF testL hk1 hkn hdim
    by_cases hE : testL = []
    · subst hE
      have hc : (Predictor.fit train labels k).scoreClassification testF [] =
          .error .invalidArgument := by
        unfold Predictor.scoreClassification
        rfl
      have hr : (Predictor.fit train labels k).scoreRegression testF [] =
          .error .invalidArgument := by
        unfold Predictor.scoreRegression
        rfl
      exact ⟨⟨fun _ => rfl, fun _ => hc⟩, ⟨fun _ => rfl, fun _ => hr⟩⟩
    · obtain ⟨predsC, hpredsC, -⟩ :=
        mapOrErr_classification_ok train labels k testF hk1 hkn hdim
      obtain ⟨predsR, hpredsR, -⟩ :=
        mapOrErr_regression_ok train labels k testF hk1 hkn hdim
      have hscoreC : (Predictor.fit train labels k).scoreClassification testF testL =
          .ok (((predsC.zip testL).foldl
            (fun acc q => if q.1 = q.2 then acc + 1 else acc) 0) /
              (testL.length : ℚ)) := by
        unfold Predictor.scoreClassification
        rw [if_neg (not_isEmpty_of_ne_nil hE), hpredsC]
      have hscoreR : (Predictor.fit train labels k).scoreRegression testF testL =
          .ok (1 - ((predsR.zip testL).foldl (fun acc q => acc + (q.2 - q.1) ^ 2) 0) /
            (testL.foldl
              (fun acc y => acc + (y - testL.sum / (testL.length : ℚ)) ^ 2) 0)) := by
        unfold Predictor.scoreRegression
        rw [if_neg (not_isEmpty_of_ne_nil hE), hpredsR]
      constructor
      · constructor
        · intro hc
          rw [hscoreC] at hc
          exact absurd hc (by simp)
        · intro hc
          exact absurd hc hE
      · constructor
        · intro hc
          rw [hscoreR] at hc
          exact absurd hc (by simp)
        · intro hc
          exact absurd hc hE

/-- Witness for C8's score part at the predictor fitted on `[[5],[7]]`
with an empty test label sequence. -/
theorem knn_error_conditions_witness :
    (1 ≤ 1 ∧ 1 ≤ ([[5], [7]] : List (List ℚ)).length ∧
      (∀ pt ∈ ([[5], [7]] : List (List ℚ)),
        ∀ obs ∈ ([[5], [7]] : List (List ℚ)), obs.length = pt.length)) ∧
    ((((Predictor.fit [[5], [7]] [2, 3] 1).scoreClassification [[5], [7]] [] =
        .error .invalidArgument) ↔ ([] : List ℚ) = []) ∧
      (((Predictor.fit [[5], [7]] [2, 3] 1).scoreRegression [[5], [7]] [] =
        .error .invalidArgument) ↔ ([] : List ℚ) = [])) :=
  ⟨⟨by decide, by decide, by decide⟩,
    knn_error_conditions.2 [[5], [7]] [2, 3] 1 [[5], [7]] []
      (by decide) (by decide) (by decide)⟩

/-- Arithmetic mean of a list of rationals (empty list yields 0 via
division by zero, matching the library convention `x / 0 = 0`). -/
def mean (xs : List ℚ) : ℚ := xs.sum / (xs.length : ℚ)

/-- Population variance (ddof = 0, the library default noted in the
spec): mean of squared deviations from the mean. -/
def popVar (xs : List ℚ) : ℚ := mean (xs.map (fun x => (x - mean xs) ^ 2))

/-- Modelled from the spec: the `Standardizer` (§4.3) is absent from the
notebooks (they call the external library's `StandardScaler`); it stores a
per-feature mean and scale (standard deviation) computed at fit time.
Since the exact square root of a rational variance is in general
irrational, the embedding keeps the stored scales abstract; theorems
constrain them by `scale ^ 2 = popVar column`. -/
structure Standardizer where
  means : List ℚ
  scales : List ℚ
deriving DecidableEq, Repr

/-- Modelled from the spec: `transform` applies `(x - mean) / std` per
feature to one observation. -/
def Standardizer.transformRow (st : Standardizer) (row : List ℚ) : List ℚ :=
  List.zipWith (fun ms x => (x - ms.1) / ms.2) (st.means.zip st.scales) row

/-- Modelled from the spec: `transform` returns a newly built sequence of
transformed observations and leaves its argument untouched. -/
def Standardizer.transform (st : Standardizer) (X : List (List ℚ)) :
    List (List ℚ) :=
  X.map st.transformRow

theorem sum_map_div (l : List ℚ) (f : ℚ → ℚ) (c : ℚ) :
    (l.map (fun x => f x / c)).sum = (l.map f).sum / c := by
  induction l with
  | nil => simp
  | cons x t ih =>
    simp only [List.map_cons, List.sum_cons, ih]
    rw [div_add_div_same]

theorem sum_map_sub_const (l : List ℚ) (c : ℚ) :
    (l.map (fun x => x - c)).sum = l.sum - (l.length : ℚ) * c := by
  induction l with
  | nil => simp
  | cons x t ih =>
    simp only [List.map_cons, List.sum_cons, ih, List.length_cons]
    push_cast
    ring

theorem mean_eq (l : List ℚ) : mean l = l.sum / (l.length : ℚ) := rfl

theorem mean_standardized (xs : List ℚ) (σ : ℚ) (hxs : xs ≠ []) :
    mean (xs.map (fun x => (x - mean xs) / σ)) = 0 := by
  have hlen : (xs.length : ℚ) ≠ 0 := by
    exact_mod_cast Nat.pos_iff_ne_zero.mp (List.length_pos.mpr hxs)
  have h1 : (xs.map (fun x => (x - mean xs) / σ)).sum
      = (xs.map (fun x => x - mean xs)).sum / σ :=
    sum_map_div xs (fun x => x - mean xs) σ
  have h2 : (xs.map (fun x => x - mean xs)).sum
      = xs.sum - (xs.length : ℚ) * mean xs :=
    sum_map_sub_const xs (mean xs)
  have h3 : xs.sum - (xs.length : ℚ) * mean xs = 0 := by
    rw [mean_eq xs]
    field_simp
  rw [mean_eq (xs.map (fun x => (x - mean xs) / σ)), List.length_map, h1, h2, h3,
    zero_div, zero_div]

theorem popVar_standardized (xs : List ℚ) (σ : ℚ) (hxs : xs ≠ [])
    (hσ2 : σ ^ 2 = popVar xs) (hσ : σ ≠ 0) :
    popVar (xs.map (fun x => (x - mean xs) / σ)) = 1 := by
  have hlen : (xs.length : ℚ) ≠ 0 := by
    exact_mod_cast Nat.pos_iff_ne_zero.mp (List.length_pos.mpr hxs)
  have hmz : mean (xs.map (fun x => (x - mean xs) / σ)) = 0 :=
    mean_standardized xs σ hxs
  unfold popVar
  rw [hmz]
  simp only [sub_zero, List.map_map, Function.comp_def]
  have hsq : (xs.map (fun x => ((x - mean xs) / σ) ^ 2))
      = xs.map (fun x => ((x - mean xs) ^ 2) / (σ ^ 2)) := by
    simp only [div_pow]
  rw [hsq, mean_eq (xs.map (fun x => (x - mean xs) ^ 2 / σ ^ 2)), List.length_map,
    sum_map_div xs (fun x => (x - mean xs) ^ 2) (σ ^ 2)]
  have hvar : popVar xs = (xs.map (fun x => (x - mean xs) ^ 2)).sum / (xs.length : ℚ) := by
    unfold popVar
    rw [mean_eq (xs.map (fun x => (x - mean xs) ^ 2)), List.length_map]
  rw [hvar] at hσ2
  have hσ2ne : σ ^ 2 ≠ 0 := pow_ne_zero 2 hσ
  field_simp
  field_simp at hσ2
  linarith [hσ2]

theorem transformRow_getD (st : Standardizer) (row : List ℚ) (j : ℕ)
    (hjm : j < st.means.length) (hjs : j < st.scales.length)
    (hrow : j < row.length) :
    (st.transformRow row).getD j 0
      = (row.getD j 0 - st.means.getD j 0) / st.scales.getD j 0 := by
  unfold Standardizer.transformRow
  have hlt : j < (List.zipWith (fun ms x => (x - ms.1) / ms.2)
      (st.means.zip st.scales) row).length := by
    simp only [List.length_zipWith, List.length_zip]
    omega
  have hzip : j < (st.means.zip st.scales).length := by
    simp only [List.length_zip]
    omega
  rw [List.getD_eq_getElem?_getD, List.getElem?_eq_getElem hlt]
  simp only [Option.getD_some, List.getElem_zipWith, List.getElem_zip]
  rw [List.getD_eq_getElem?_getD row, List.getElem?_eq_getElem hrow,
    List.getD_eq_getElem?_getD st.means, List.getElem?_eq_getElem hjm,
    List.getD_eq_getElem?_getD st.scales, List.getElem?_eq_getElem hjs]
  rfl

theorem transform_col (st : Standardizer) (X : List (List ℚ)) (j : ℕ)
    (hjm : j < st.means.length) (hjs : j < st.scales.length)
    (hrows : ∀ row ∈ X, j < row.length) :
    (st.transform X).map (fun row => row.getD j 0)
      = (X.map (fun row => row.getD j 0)).map
          (fun x => (x - st.means.getD j 0) / st.scales.getD j 0) := by
  induction X with
  | nil => rfl
  | cons row t ih =>
    have hrow : j < row.length := hrows row (List.mem_cons_self _ _)
    have ht := ih (fun r hr => hrows r (List.mem_cons_of_mem _ hr))
    simp only [Standardizer.transform, List.map_cons] at ht ⊢
    rw [transformRow_getD st row j hjm hjs hrow, ht]

/-- C3: for every `Standardizer` fitted on a training feature set —
stored column mean equal to the column's arithmetic mean and stored scale
squaring to the column's population variance — `transform` applies
`(x - mean) / std` per feature (by definition of `transformRow`), and
transforming the training set yields, for every non-degenerate column
(scale ≠ 0), mean exactly 0 and variance exactly 1 (hence standard
deviation 1); exactness over `ℚ` subsumes the spec's floating-point
tolerance. -/
theorem standardizer_train_column_spec (X : List (List ℚ)) (st : Standardizer)
    (j : ℕ) (hX : X ≠ []) (hjm : j < st.means.length) (hjs : j < st.scales.length)
    (hrows : ∀ row ∈ X, j < row.length)
    (hμ : st.means.getD j 0 = mean (X.map (fun row => row.getD j 0)))
    (hσ2 : (st.scales.getD j 0) ^ 2 = popVar (X.map (fun row => row.getD j 0)))
    (hσ : st.scales.getD j 0 ≠ 0) :
    mean ((st.transform X).map (fun row => row.getD j 0)) = 0 ∧
    popVar ((st.transform X).map (fun row => row.getD j 0)) = 1 := by
  rw [transform_col st X j hjm hjs hrows, hμ]
  have hne : X.map (fun row => row.getD j 0) ≠ [] := by
    simpa using hX
  exact ⟨mean_standardized _ _ hne,
    popVar_standardized _ _ hne hσ2 hσ⟩

/-- Witness for C3: the standardizer with mean 0 and scale 1 fitted on the
single-feature training set `[[-1],[1]]` (column mean 0, variance 1). -/
theorem standardizer_train_column_spec_witness :
    (([[-1], [1]] : List (List ℚ)) ≠ [] ∧
      0 < (Standardizer.mk [0] [1]).means.length ∧
      0 < (Standardizer.mk [0] [1]).scales.length ∧
      (∀ row ∈ ([[-1], [1]] : List (List ℚ)), 0 < row.length) ∧
      (Standardizer.mk [0] [1]).means.getD 0 0 =
        mean (([[-1], [1]] : List (List ℚ)).map (fun row => row.getD 0 0)) ∧
      ((Standardizer.mk [0] [1]).scales.getD 0 0) ^ 2 =
        popVar (([[-1], [1]] : List (List ℚ)).map (fun row => row.getD 0 0)) ∧
      (Standardizer.mk [0] [1]).scales.getD 0 0 ≠ 0) ∧
    (mean (((Standardizer.mk [0] [1]).transform [[-1], [1]]).map
        (fun row => row.getD 0 0)) = 0 ∧
      popVar (((Standardizer.mk [0] [1]).transform [[-1], [1]]).map
        (fun row => row.getD 0 0)) = 1) :=
  ⟨⟨by decide, by decide, by decide, by decide,
      by simp [mean], by simp [popVar, mean, div_self], by decide⟩,
    standardizer_train_column_spec [[-1], [1]] (Standardizer.mk [0] [1]) 0
      (by decide) (by decide) (by decide) (by decide)
      (by simp [mean]) (by simp [popVar, mean, div_self]) (by decide)⟩

/-- `CenteringTransformer` from the workflow notebook: `fit` stores the
per-column means of `X` (`X.mean(axis=0)`); `transform` returns
`X - self.means` (numpy broadcasting subtracts the mean row from every
row, allocating a fresh array). -/
structure CenteringTransformer where
  means : List ℚ
deriving DecidableEq, Repr

def CenteringTransformer.fit (X : List (List ℚ)) : CenteringTransformer :=
  ⟨X.transpose.map mean⟩

def CenteringTransformer.transform (ct : CenteringTransformer)
    (X : List (List ℚ)) : List (List ℚ) :=
  X.map (fun row => List.zipWith (fun x mu => x - mu) row ct.means)

/-- Effectful view of `Standardizer.transform` for frame reasoning: the
result paired with the caller's input buffer after the call.  The
transform builds its output from fresh lists with non-mutating elementwise
operations, so the caller's buffer comes back unchanged. -/
def Standardizer.transformE (st : Standardizer) (X : List (List ℚ)) :
    List (List ℚ) × List (List ℚ) :=
  (st.transform X, X)

/-- Effectful view of `CenteringTransformer.transform`: in the notebook
source the body is the allocating numpy expression `X - self.means`, which
does not write to `X`; the caller's buffer comes back unchanged. -/
def CenteringTransformer.transformE (ct : CenteringTransformer)
    (X : List (List ℚ)) : List (List ℚ) × List (List ℚ) :=
  (ct.transform X, X)

/-- C4: `transform` returns a newly built result and never mutates its
input (the caller's buffer after the call equals the original), so calling
`transform(X)` twice on the same unmodified `X` yields identical results
both times; stated for the spec's `Standardizer` and for the notebook's
`CenteringTransformer`. -/
theorem transform_no_mutation :
    (∀ (st : Standardizer) (X : List (List ℚ)),
      (st.transformE X).2 = X ∧
      (st.transformE ((st.transformE X).2)).1 = (st.transformE X).1 ∧
      (st.transformE ((st.transformE X).2)).2 = X) ∧
    (∀ (ct : CenteringTransformer) (X : List (List ℚ)),
      (ct.transformE X).2 = X ∧
      (ct.transformE ((ct.transformE X).2)).1 = (ct.transformE X).1 ∧
      (ct.transformE ((ct.transformE X).2)).2 = X) :=
  ⟨fun _ _ => ⟨rfl, rfl, rfl⟩, fun _ _ => ⟨rfl, rfl, rfl⟩⟩

/-- Effectful view of `NeighborIndex.fit`: the fitted index paired with
the caller's training buffer after the call (`fit` stores by value and
does not write to the caller's data). -/
def NeighborIndex.fitE (X : List (List ℚ)) : NeighborIndex × List (List ℚ) :=
  (NeighborIndex.fit X, X)

/-- Effectful view of `query`: result paired with the caller's query point
after the call. -/
def NeighborIndex.queryE (nn : NeighborIndex) (point : List ℚ) (k : ℕ) :
    Except MLError (List (ℚ × ℕ)) × List ℚ :=
  (nn.query point k, point)

/-- Effectful view of `predictClassification`. -/
def Predictor.predictClassificationE (p : Predictor) (point : List ℚ) :
    Except MLError ℚ × List ℚ :=
  (p.predictClassification point, point)

/-- Effectful view of `predictRegression`. -/
def Predictor.predictRegressionE (p : Predictor) (point : List ℚ) :
    Except MLError ℚ × List ℚ :=
  (p.predictRegression point, point)

/-- Effectful view of `scoreClassification`. -/
def Predictor.scoreClassificationE (p : Predictor) (testF : List (List ℚ))
    (testL : List ℚ) : Except MLError ℚ × (List (List ℚ) × List ℚ) :=
  (p.scoreClassification testF testL, (testF, testL))

/-- Effectful view of `scoreRegression`. -/
def Predictor.scoreRegressionE (p : Predictor) (testF : List (List ℚ))
    (testL : List ℚ) : Except MLError ℚ × (List (List ℚ) × List ℚ) :=
  (p.scoreRegression testF testL, (testF, testL))

/-- C9: every operation is deterministic and pure over owned copies of its
inputs: two runs on the same fitted state and the same arguments produce
the same result (stated as a two-state hyperproperty over equal observable
states), and no operation writes to caller-visible buffers — each
effectful view returns the caller's arguments unchanged; `fit` affects
only the newly created instance, which stores its own copy of the training
data. -/
theorem knn_ops_pure_deterministic :
    (∀ X : List (List ℚ),
      (NeighborIndex.fitE X).2 = X ∧ (NeighborIndex.fitE X).1.train = X) ∧
    (∀ (nn₁ nn₂ : NeighborIndex) (point : List ℚ) (k : ℕ), nn₁ = nn₂ →
      (nn₁.queryE point k).2 = point ∧
      nn₁.query point k = nn₂.query point k) ∧
    (∀ (p₁ p₂ : Predictor) (point : List ℚ), p₁ = p₂ →
      (p₁.predictClassificationE point).2 = point ∧
      p₁.predictClassification point = p₂.predictClassification point ∧
      (p₁.predictRegressionE point).2 = point ∧
      p₁.predictRegression point = p₂.predictRegression point) ∧
    (∀ (p₁ p₂ : Predictor) (testF : List (List ℚ)) (testL : List ℚ), p₁ = p₂ →
      (p₁.scoreClassificationE testF testL).2 = (testF, testL) ∧
      p₁.scoreClassification testF testL = p₂.scoreClassification testF testL ∧
      (p₁.scoreRegressionE testF testL).2 = (testF, testL) ∧
      p₁.scoreRegression testF testL = p₂.scoreRegression testF testL) ∧
    (∀ (st₁ st₂ : Standardizer) (X : List (List ℚ)), st₁ = st₂ →
      (st₁.transformE X).2 = X ∧ st₁.transform X = st₂.transform X) ∧
    (∀ (ct₁ ct₂ : CenteringTransformer) (X : List (List ℚ)), ct₁ = ct₂ →
      (ct₁.transformE X).2 = X ∧ ct₁.transform X = ct₂.transform X) := by
  refine ⟨fun X => ⟨rfl, rfl⟩, ?_, ?_, ?_, ?_, ?_⟩
  · intro nn₁ nn₂ point k h
    subst h
    exact ⟨rfl, rfl⟩
  · intro p₁ p₂ point h
    subst h
    exact ⟨rfl, rfl, rfl, rfl⟩
  · intro p₁ p₂ testF testL h
    subst h
    exact ⟨rfl, rfl, rfl, rfl⟩
  · intro st₁ st₂ X h
    subst h
    exact ⟨rfl, rfl⟩
  · intro ct₁ ct₂ X h
    subst h
    exact ⟨rfl, rfl⟩

/-- Witness for C9 at a concrete index, predictor, standardizer and
centering transformer. -/
theorem knn_ops_pure_deterministic_witness :
    ((NeighborIndex.fit [[5]] = NeighborIndex.fit [[5]]) ∧
      ((NeighborIndex.fit [[5]]).queryE [5] 1).2 = [5] ∧
      (NeighborIndex.fit [[5]]).query [5] 1 = (NeighborIndex.fit [[5]]).query [5] 1) ∧
    ((Predictor.fit [[5]] [2] 1 = Predictor.fit [[5]] [2] 1) ∧
      ((Predictor.fit [[5]] [2] 1).predictClassificationE [5]).2 = [5] ∧
      (Predictor.fit [[5]] [2] 1).predictClassification [5] =
        (Predictor.fit [[5]] [2] 1).predictClassification [5] ∧
      ((Predictor.fit [[5]] [2] 1).predictRegressionE [5]).2 = [5] ∧
      (Predictor.fit [[5]] [2] 1).predictRegression [5] =
        (Predictor.fit [[5]] [2] 1).predictRegression [5]) ∧
    ((Standardizer.mk [0] [1] = Standardizer.mk [0] [1]) ∧
      ((Standardizer.mk [0] [1]).transformE [[5]]).2 = [[5]] ∧
      (Standardizer.mk [0] [1]).transform [[5]] =
        (Standardizer.mk [0] [1]).transform [[5]]) :=
  ⟨⟨rfl, knn_ops_pure_deterministic.2.1 (NeighborIndex.fit [[5]])
      (NeighborIndex.fit [[5]]) [5] 1 rfl⟩,
    ⟨rfl, knn_ops_pure_deterministic.2.2.1 (Predictor.fit [[5]] [2] 1)
      (Predictor.fit [[5]] [2] 1) [5] rfl⟩,
    ⟨rfl, knn_ops_pure_deterministic.2.2.2.2.1 (Standardizer.mk [0] [1])
      (Standardizer.mk [0] [1]) [[5]] rfl⟩⟩

/-- Interface of a transformer collaborator as `ShellEstimator` uses it: a
state type `TS` with `fit` returning the fitted state and a
state-dependent `transform` (the notebook's duck-typed
`fit`/`transform` convention made explicit). -/
structure TransformerI (TS : Type) where
  fit : TS → List (List ℚ) → List ℚ → TS
  transform : TS → List (List ℚ) → List (List ℚ)

/-- Interface of a model collaborator as `ShellEstimator` uses it: `fit`,
`predict` and `score` over a state type `MS`. -/
structure ModelI (MS : Type) where
  fit : MS → List (List ℚ) → List ℚ → MS
  predict : MS → List (List ℚ) → List ℚ
  score : MS → List (List ℚ) → List ℚ → ℚ

/-- `ShellEstimator` from the workflow notebook: combines a transformer
and a regressor into a single estimator holding both components and their
states. -/
structure ShellEstimator (TS MS : Type) where
  transformer : TransformerI TS
  tState : TS
  model : ModelI MS
  mState : MS

/-- `ShellEstimator.fit` from the notebook:
`X_trans = self.transformer.fit(X, y).transform(X)` followed by
`self.model.fit(X_trans, y)`. -/
def ShellEstimator.fit {TS MS : Type} (se : ShellEstimator TS MS)
    (X : List (List ℚ)) (y : List ℚ) : ShellEstimator TS MS :=
  let tFitted := se.transformer.fit se.tState X y
  let XTrans := se.transformer.transform tFitted X
  let mFitted := se.model.fit se.mState XTrans y
  { se with tState := tFitted, mState := mFitted }

/-- `ShellEstimator.predict` from the notebook:
`self.model.predict(self.transformer.transform(X))`. -/
def ShellEstimator.predict {TS MS : Type} (se : ShellEstimator TS MS)
    (X : List (List ℚ)) : List ℚ :=
  se.model.predict se.mState (se.transformer.transform se.tState X)

/-- `ShellEstimator.score` from the notebook:
`self.model.score(self.transformer.transform(X), y)`. -/
def ShellEstimator.score {TS MS : Type} (se : ShellEstimator TS MS)
    (X : List (List ℚ)) (y : List ℚ) : ℚ :=
  se.model.score se.mState (se.transformer.transform se.tState X) y

/-- Manual workflow from the notebook cells that `ShellEstimator`
replaces: fit the transformer, transform the training set, fit the model
on the transformed data, then predict through the fitted pair. -/
def manualFitPredict {TS MS : Type} (t : TransformerI TS) (t0 : TS)
    (m : ModelI MS) (m0 : MS) (X : List (List ℚ)) (y : List ℚ)
    (Xq : List (List ℚ)) : List ℚ :=
  let tFitted := t.fit t0 X y
  let XTrans := t.transform tFitted X
  let mFitted := m.fit m0 XTrans y
  m.predict mFitted (t.transform tFitted Xq)

/-- Manual scoring workflow, as in the notebook's
`pne.score(ct.transform(X_test), y_test)` cell. -/
def manualFitScore {TS MS : Type} (t : TransformerI TS) (t0 : TS)
    (m : ModelI MS) (m0 : MS) (X : List (List ℚ)) (y : List ℚ)
    (Xq : List (List ℚ)) (yq : List ℚ) : ℚ :=
  let tFitted := t.fit t0 X y
  let XTrans := t.transform tFitted X
  let mFitted := m.fit m0 XTrans y
  m.score mFitted (t.transform tFitted Xq) yq

/-- C10: for every transformer `t`, model `m` and inputs `X`, `y`, after
`ShellEstimator(t, m).fit(X, y)`, `predict(X')` equals
`m.predict(t.transform(X'))` computed with the separately fitted
components, for every `X'` — the composed estimator is extensionally equal
to the manual transform-then-predict workflow (the notebook's `k_shell`
assertion); likewise for `score`. -/
theorem shell_estimator_refines_manual :
    ∀ (TS MS : Type) (t : TransformerI TS) (t0 : TS) (m : ModelI MS) (m0 : MS)
      (X : List (List ℚ)) (y : List ℚ) (Xq : List (List ℚ)),
      ((ShellEstimator.mk t t0 m m0).fit X y).predict Xq
        = manualFitPredict t t0 m m0 X y Xq ∧
      ∀ yq : List ℚ,
        ((ShellEstimator.mk t t0 m m0).fit X y).score Xq yq
          = manualFitScore t t0 m m0 X y Xq yq :=
  fun _ _ _ _ _ _ _ _ _ => ⟨rfl, fun _ => rfl⟩

end ML2
